import Mathlib

/-!
Verification of the PDF text-extraction utility
(`src/rankcentral-next/src/lib/utils/pdf-extractor.py`).

The program is a thin pipeline: base64-decode the input, read pages through
PyPDF2, join the non-empty page texts with a blank line, clean the result
with a fixed sequence of regular-expression substitutions, and assemble a
result record with `success`, `text`, `metadata` and (on failure) `error`.

Shallow embedding conventions:

* Strings are modelled through their character lists (`String.data`);
  byte strings are `List Nat`.
* Each `re.sub` call of `clean_text_for_llm` is embedded as a structurally
  recursive scanner over `List Char` that reproduces CPython `re` semantics
  (leftmost scanning, greedy quantifiers with backtracking, MULTILINE `^`/`$`).
  Patterns whose matches cannot cross a newline are applied per line after
  an explicit split on `'\n'`; the two patterns whose `\s*` can absorb
  newlines (`^\d+\s*$` and `^\s*[.,:;!?]\s*$`) are embedded as line-level
  state machines derived from the character-level scanning semantics.
* `\d`, `\s`, `[a-z]`, `[A-Z]` are modelled at the ASCII level
  (`\s` as the six characters space, tab, LF, CR, VT, FF); Python's regex
  classes additionally accept some non-ASCII code points, which this
  embedding does not model.
* `base64.b64decode` (CPython `binascii.a2b_base64`, non-strict mode) is
  embedded concretely, including its error messages.
* PyPDF2 is an external library and is modelled as an oracle
  (`PdfParse`): given the decoded bytes it either fails at document level
  (`PdfReader` raising) or yields the sequence of pages, each page's
  `extract_text()` either raising (modelled `Except.error`) or returning a
  string.
* Standard output is modelled as the list of emitted result records and
  the diagnostic stream as a list of strings; JSON serialization itself is
  not modelled.
-/

/-- Characters matched by the regex class `[ \t]`. -/
def isSpaceTab (c : Char) : Bool :=
  c == ' ' || c == '\t'

/-- Characters matched by the regex class `\s`, at the ASCII level:
space, tab, newline, carriage return, vertical tab, form feed.
(The same set drives Python's `str.strip()` / `str.split()` on ASCII text.) -/
def isPySpace (c : Char) : Bool :=
  c == ' ' || c == '\t' || c == '\n' || c == '\r' || c == '\x0b' || c == '\x0c'

/-- Characters of the orphaned-punctuation class `[.,:;!?]`. -/
def isPunctChar (c : Char) : Bool :=
  c == '.' || c == ',' || c == ':' || c == ';' || c == '!' || c == '?'

/-- Characters of the sentence-ending class `[.!?]`. -/
def isSentencePunct (c : Char) : Bool :=
  c == '.' || c == '!' || c == '?'

/-- Step 1, `re.sub(r'[ \t]+', ' ', text)`: every maximal run of spaces/tabs
becomes a single space.  The boolean records whether the scanner is inside a
run whose replacement space has already been emitted. -/
def collapseSpaceTab : Bool → List Char → List Char
  | _, [] => []
  | inRun, c :: rest =>
    if isSpaceTab c then
      if inRun then collapseSpaceTab true rest
      else ' ' :: collapseSpaceTab true rest
    else c :: collapseSpaceTab false rest

/-- Step 2, `re.sub(r'\r\n', '\n', text)`: replace each (leftmost,
non-overlapping) CR-LF pair by a newline. -/
def replaceCRLF : List Char → List Char
  | [] => []
  | [c] => [c]
  | a :: b :: rest =>
    if a == '\r' && b == '\n' then '\n' :: replaceCRLF rest
    else a :: replaceCRLF (b :: rest)

/-- Step 3, `re.sub(r'\r', '\n', text)`. -/
def replaceCR (l : List Char) : List Char :=
  l.map fun c => if c == '\r' then '\n' else c

/-- Step 4, `re.sub(r'\n{3,}', '\n\n', text)`: every maximal run of three or
more newlines becomes exactly two.  The counter is the number of
consecutive newlines already emitted for the current run (capped at 2). -/
def collapseNewlines : Nat → List Char → List Char
  | _, [] => []
  | k, c :: rest =>
    if c == '\n' then
      if 2 ≤ k then collapseNewlines k rest
      else '\n' :: collapseNewlines (k + 1) rest
    else c :: collapseNewlines 0 rest

/-- Split a text into its lines at `'\n'`; a text with `n` newlines yields
`n + 1` lines (line contents never contain `'\n'`). -/
def splitLines : List Char → List (List Char)
  | [] => [[]]
  | c :: rest =>
    if c == '\n' then [] :: splitLines rest
    else
      match splitLines rest with
      | [] => [[c]]
      | line :: ls => (c :: line) :: ls

/-- Inverse of `splitLines`: join lines with `'\n'`. -/
def joinLines : List (List Char) → List Char
  | [] => []
  | [line] => line
  | line :: rest => line ++ '\n' :: joinLines rest

/-- Apply a per-line rewrite, for the MULTILINE substitutions whose matches
cannot cross a newline. -/
def perLine (f : List Char → List Char) (l : List Char) : List Char :=
  joinLines ((splitLines l).map f)

/-- Lines matched by `^Page \d+.*$`: the literal `Page `, then at least one
digit, then anything up to the line end. -/
def isPageNumberLine : List Char → Bool
  | 'P' :: 'a' :: 'g' :: 'e' :: ' ' :: d :: _ => d.isDigit
  | _ => false

/-- Step 5, `re.sub(r'^Page \d+.*$', '', text, flags=re.MULTILINE)`: the
matched line content is replaced by the empty string (the newline stays). -/
def removePageLine (line : List Char) : List Char :=
  if isPageNumberLine line then [] else line

/-- A line consisting only of whitespace (possibly empty). -/
def isAllWhitespace (line : List Char) : Bool :=
  line.all isPySpace

/-- Lines whose content is `\d+` followed only by whitespace: the in-line
part of a `^\d+\s*$` match. -/
def isDigitLine (line : List Char) : Bool :=
  !(line.takeWhile Char.isDigit).isEmpty && (line.dropWhile Char.isDigit).all isPySpace

/-- Step 6, `re.sub(r'^\d+\s*$', '', text, flags=re.MULTILINE)`, as a
state machine over the line list.  Because `\s` also matches `'\n'`, the
greedy `\s*$` of a match on a digit line additionally absorbs every
immediately following all-whitespace line (stopping before the last
newline of the run), so the whole group collapses to one empty line.
The boolean is true while such absorbed lines are being dropped. -/
def removeDigitLines : Bool → List (List Char) → List (List Char)
  | _, [] => []
  | skipping, line :: rest =>
    if skipping && isAllWhitespace line then removeDigitLines true rest
    else if isDigitLine line then [] :: removeDigitLines true rest
    else line :: removeDigitLines false rest

/-- Step 7, `re.sub(r'[ \t]+$', '', text, flags=re.MULTILINE)`: remove
trailing spaces/tabs of every line. -/
def stripTrailingSpaceTab (line : List Char) : List Char :=
  (line.reverse.dropWhile isSpaceTab).reverse

/-- Step 8, `re.sub(r'^[ \t]{1,2}', '', text, flags=re.MULTILINE)`: greedily
remove one or two leading spaces/tabs of every line. -/
def stripLeadingSpaceTab12 : List Char → List Char
  | [] => []
  | [a] => if isSpaceTab a then [] else [a]
  | a :: b :: rest =>
    if isSpaceTab a then
      if isSpaceTab b then rest else b :: rest
    else a :: b :: rest

/-- Step 9, `re.sub(r'([a-z])([A-Z])', r'\1 \2', text)`: insert a space
between a lowercase letter and an uppercase letter; scanning resumes after
the uppercase letter. -/
def spaceLowerUpper : List Char → List Char
  | a :: b :: rest =>
    if a.isLower && b.isUpper then a :: ' ' :: b :: spaceLowerUpper rest
    else a :: spaceLowerUpper (b :: rest)
  | l => l

/-- Step 10, `re.sub(r'([.!?])([A-Z])', r'\1 \2', text)`. -/
def spacePunctUpper : List Char → List Char
  | a :: b :: rest =>
    if isSentencePunct a && b.isUpper then a :: ' ' :: b :: spacePunctUpper rest
    else a :: spacePunctUpper (b :: rest)
  | l => l

/-- Lines whose first non-whitespace character is one of `.,:;!?` and whose
remaining characters are whitespace: the in-line part of a
`^\s*[.,:;!?]\s*$` match. -/
def isOrphanPunctLine (line : List Char) : Bool :=
  match line.dropWhile isPySpace with
  | p :: rest => isPunctChar p && rest.all isPySpace
  | [] => false

/-- Scanner state for step 11.  `plain pending` holds the all-whitespace
lines seen since the last non-whitespace line (they are absorbed by a
following orphaned-punctuation match, and emitted unchanged otherwise).
`trail lastEmpty` means a match is absorbing its trailing whitespace lines;
`lastEmpty` records whether the last absorbed line was empty, in which case
the regex engine can start a chained match at that line's start position
(its `^` looks at the original string), merging a following
orphaned-punctuation line into the same residue. -/
inductive OrphanScanState where
  | plain (pending : List (List Char))
  | trail (lastEmpty : Bool)

/-- Step 11, `re.sub(r'^\s*[.,:;!?]\s*$', '', text, flags=re.MULTILINE)`, as
a state machine over the line list: a match absorbs the pending
all-whitespace lines, the punctuation line, and the following
all-whitespace lines, and leaves a single empty line. -/
def removeOrphanPunctLines : OrphanScanState → List (List Char) → List (List Char)
  | .plain pending, [] => pending
  | .trail _, [] => []
  | .plain pending, line :: rest =>
    if isAllWhitespace line then removeOrphanPunctLines (.plain (pending ++ [line])) rest
    else if isOrphanPunctLine line then [] :: removeOrphanPunctLines (.trail false) rest
    else pending ++ line :: removeOrphanPunctLines (.plain []) rest
  | .trail lastEmpty, line :: rest =>
    if isAllWhitespace line then removeOrphanPunctLines (.trail line.isEmpty) rest
    else if isOrphanPunctLine line then
      if lastEmpty then removeOrphanPunctLines (.trail false) rest
      else [] :: removeOrphanPunctLines (.trail false) rest
    else line :: removeOrphanPunctLines (.plain []) rest

/-- Step 12, `re.sub(r'  +', ' ', text)`: every maximal run of two or more
spaces becomes one space (runs of one space are untouched, so every maximal
space run ends up a single space). -/
def collapseDoubleSpace : Bool → List Char → List Char
  | _, [] => []
  | inRun, c :: rest =>
    if c == ' ' then
      if inRun then collapseDoubleSpace true rest
      else ' ' :: collapseDoubleSpace true rest
    else c :: collapseDoubleSpace false rest

/-- Step 13, `text.strip()`: remove leading and trailing whitespace. -/
def pyStrip (l : List Char) : List Char :=
  ((l.dropWhile isPySpace).reverse.dropWhile isPySpace).reverse

/-- Steps 4-13 of `clean_text_for_llm` (everything after line-ending
normalization). -/
def cleanSteps4to13 (l : List Char) : List Char :=
  let t4 := collapseNewlines 0 l
  let t5 := perLine removePageLine t4
  let t6 := joinLines (removeDigitLines false (splitLines t5))
  let t7 := perLine stripTrailingSpaceTab t6
  let t8 := perLine stripLeadingSpaceTab12 t7
  let t9 := spaceLowerUpper t8
  let t10 := spacePunctUpper t9
  let t11 := joinLines (removeOrphanPunctLines (.plain []) (splitLines t10))
  let t12 := collapseDoubleSpace false t11
  pyStrip t12

/-- The full cleaning pipeline of `clean_text_for_llm`, on character
lists: steps 1-3 then `cleanSteps4to13`. -/
def cleanList (l : List Char) : List Char :=
  cleanSteps4to13 (replaceCR (replaceCRLF (collapseSpaceTab false l)))

/-- `clean_text_for_llm(raw_text)`: the fixed ordered sequence of the
thirteen text transformations (pdf-extractor.py, lines 74-116). -/
def clean_text_for_llm (raw_text : String) : String :=
  ⟨cleanList raw_text.data⟩

/-- Value of a base64 alphabet character (`A-Za-z0-9+/`), if any. -/
def base64CharValue (c : Char) : Option Nat :=
  let n := c.toNat
  if 65 ≤ n ∧ n ≤ 90 then some (n - 65)
  else if 97 ≤ n ∧ n ≤ 122 then some (n - 71)
  else if 48 ≤ n ∧ n ≤ 57 then some (n + 4)
  else if c == '+' then some 62
  else if c == '/' then some 63
  else none

/-- The CPython `binascii` error for a data-character count that is 1 more
than a multiple of 4. -/
def b64InvalidCountMessage (n : Nat) : String :=
  "Invalid base64-encoded string: number of data characters (" ++ toString n
    ++ ") cannot be 1 more than a multiple of 4"

/-- CPython `binascii.a2b_base64` (non-strict mode), the decoder underlying
`base64.b64decode`: non-alphabet characters are discarded; `=` ends
decoding once the current quad has at least two data characters and enough
padding; at end of input a quad position of 1 or of 2-3 is an error.
Arguments: remaining characters, quad position (0-3), pending bits, count
of consecutive padding characters, count of data characters, accumulated
output bytes (reversed). -/
def a2bBase64 : List Char → Nat → Nat → Nat → Nat → List Nat → Except String (List Nat)
  | [], quadPos, _, _, ndata, acc =>
    if quadPos == 0 then .ok acc.reverse
    else if quadPos == 1 then .error (b64InvalidCountMessage ndata)
    else .error "Incorrect padding"
  | c :: rest, quadPos, leftchar, pads, ndata, acc =>
    if c == '=' then
      if 2 ≤ quadPos ∧ 4 ≤ quadPos + (pads + 1) then .ok acc.reverse
      else a2bBase64 rest quadPos leftchar (if 2 ≤ quadPos then pads + 1 else pads) ndata acc
    else
      match base64CharValue c with
      | none => a2bBase64 rest quadPos leftchar pads ndata acc
      | some v =>
        if quadPos == 0 then a2bBase64 rest 1 v 0 (ndata + 1) acc
        else if quadPos == 1 then
          a2bBase64 rest 2 (v % 16) 0 (ndata + 1) ((leftchar * 4 + v / 16) :: acc)
        else if quadPos == 2 then
          a2bBase64 rest 3 (v % 4) 0 (ndata + 1) ((leftchar * 16 + v / 4) :: acc)
        else a2bBase64 rest 0 0 0 (ndata + 1) ((leftchar * 64 + v) :: acc)

/-- `base64.b64decode` on a Python `str`: the string must be pure ASCII and
is then decoded by `a2bBase64`. -/
def b64decode (s : String) : Except String (List Nat) :=
  if s.data.all (fun c => c.toNat ≤ 127) then a2bBase64 s.data 0 0 0 0 []
  else .error "string argument should contain only ASCII characters"

deriving instance DecidableEq for Except

/-- `ExtractionMetadata` (the `metadata` dictionary on success). -/
structure ExtractionMetadata where
  page_count : Nat
  word_count : Nat
  char_count : Nat
  avg_words_per_page : ℚ
deriving DecidableEq, Repr

/-- `ExtractionResult` (the dictionary returned by
`extract_text_from_pdf`); `metadata = none` models the empty dictionary and
`error = none` the absent `error` key. -/
structure ExtractionResult where
  success : Bool
  text : String
  metadata : Option ExtractionMetadata
  error : Option String
deriving DecidableEq, Repr

/-- Oracle for the external PyPDF2 library: from the decoded bytes, either
a document-level failure (`PdfReader` raising) or the list of pages, each
page's `extract_text()` either raising or returning a string. -/
abbrev PdfParse := List Nat → Except String (List (Except String String))

/-- Whether a page's `extract_text()` raised. -/
def isPageError : Except String String → Bool
  | .error _ => true
  | .ok _ => false

/-- The page loop of `extract_text_from_pdf` (lines 35-44): returns the
collected page texts (pages whose text is whitespace-only are dropped; the
kept text is the original, unstripped one) and the warnings printed to the
diagnostic stream for pages whose extraction raised. -/
def collectPages : Nat → List (Except String String) → List String × List String
  | _, [] => ([], [])
  | pageNum, .error e :: rest =>
    let r := collectPages (pageNum + 1) rest
    (r.1, ("Warning: Error extracting text from page " ++ toString (pageNum + 1) ++ ": " ++ e)
      :: r.2)
  | pageNum, .ok t :: rest =>
    let r := collectPages (pageNum + 1) rest
    (if (pyStrip t.data).isEmpty then r.1 else t :: r.1, r.2)

/-- `"\n\n".join(text_content)` (line 47). -/
def joinTexts : List String → String
  | [] => ""
  | [t] => t
  | t :: rest => t ++ "\n\n" ++ joinTexts rest

/-- Helper for `pySplit`: the first argument holds the reversed characters
of the word in progress (empty when between words). -/
def pySplitGo : List Char → List Char → List (List Char)
  | cur, [] => if cur.isEmpty then [] else [cur.reverse]
  | cur, c :: rest =>
    if isPySpace c then
      if cur.isEmpty then pySplitGo [] rest
      else cur.reverse :: pySplitGo [] rest
    else pySplitGo (c :: cur) rest

/-- Python `str.split()` with no separator: the maximal non-whitespace runs
(never containing empty strings). -/
def pySplit (l : List Char) : List (List Char) :=
  pySplitGo [] l

/-- `extract_text_from_pdf(pdf_base64)` (lines 15-71): decode, read pages
through the oracle, collect page texts, clean, and assemble the result.
Returns the result record together with the warnings written to the
diagnostic stream. -/
def extract_text_from_pdf (parse : PdfParse) (pdf_base64 : String) :
    ExtractionResult × List String :=
  match b64decode pdf_base64 with
  | .error e => ({ success := false, text := "", metadata := none, error := some e }, [])
  | .ok pdf_bytes =>
    match parse pdf_bytes with
    | .error e => ({ success := false, text := "", metadata := none, error := some e }, [])
    | .ok pages =>
      let collected := collectPages 0 pages
      let cleaned_text := clean_text_for_llm (joinTexts collected.1)
      let word_count := (pySplit cleaned_text.data).length
      let page_count := pages.length
      ({ success := true, text := cleaned_text,
         metadata := some
           { page_count := page_count, word_count := word_count,
             char_count := cleaned_text.length,
             avg_words_per_page :=
               if 0 < page_count then (word_count : ℚ) / (page_count : ℚ) else 0 },
         error := none }, collected.2)

/-- The data-URI marker checked by `main` (line 127). -/
def dataUriMarker : String :=
  "data:application/pdf;base64,"

/-- `s.split(',', 1)[1]`: everything after the first comma (only invoked
when the argument starts with `dataUriMarker`, which contains a comma). -/
def splitAfterFirstComma : List Char → List Char
  | [] => []
  | c :: rest => if c == ',' then rest else splitAfterFirstComma rest

/-- The data-URI handling of `main` (lines 126-128): strip the marker by
splitting on the first comma when the argument starts with it. -/
def processArg (arg : String) : String :=
  if dataUriMarker.data.isPrefixOf arg.data then ⟨splitAfterFirstComma arg.data⟩ else arg

/-- The usage line printed to the diagnostic stream on wrong argument
count. -/
def usageMessage : String :=
  "Usage: python pdf-extractor.py <base64_pdf_content>"

/-- `main()` (lines 119-132) on an argument vector (`argv.head` is the
script name): returns the exit code, the result records written to
standard output, and the lines written to the diagnostic stream. -/
def mainRun (parse : PdfParse) (argv : List String) :
    Nat × List ExtractionResult × List String :=
  match argv with
  | [_, arg] =>
    let r := extract_text_from_pdf parse (processArg arg)
    (0, [r.1], r.2)
  | _ => (1, [], [usageMessage])

/-- Sample oracle: the document fails to open. -/
def parseFailOracle : PdfParse :=
  fun _ => .error "EOF marker not found"

/-- Sample page list: a text page, a page whose extraction raises, and a
whitespace-only page. -/
def samplePages : List (Except String String) :=
  [.ok "Hello PDF", .error "boom", .ok " \n "]

/-- Sample oracle: a document with `samplePages`. -/
def parseOkOracle : PdfParse :=
  fun _ => .ok samplePages

/-- Sample oracle: a document with zero pages. -/
def parseEmptyOracle : PdfParse :=
  fun _ => .ok []

/-- Whether the list contains two consecutive spaces. -/
def hasDoubleSpace : List Char → Bool
  | [] => false
  | c :: rest => (c == ' ' && rest.head?.any fun x => x == ' ') || hasDoubleSpace rest

/-- The pending lines carried by an orphan-punctuation scanner state. -/
def pendingOf : OrphanScanState → List (List Char)
  | .plain pending => pending
  | .trail _ => []


/-! ## Supporting lemmas -/

theorem b64InvalidCountMessage_ne (n : Nat) : b64InvalidCountMessage n ≠ "" := by
  intro h
  have hlen := congrArg String.length h
  rw [b64InvalidCountMessage, String.length_append, String.length_append] at hlen
  have h1 : ("Invalid base64-encoded string: number of data characters (" : String).length = 58 :=
    rfl
  have h2 : ("" : String).length = 0 := rfl
  omega

theorem a2bBase64_error_ne (cs : List Char) :
    ∀ qp lc pads nd acc e, a2bBase64 cs qp lc pads nd acc = .error e → e ≠ "" := by
  induction cs with
  | nil =>
    intro qp lc pads nd acc e h
    simp only [a2bBase64] at h
    split at h
    · exact absurd h (by simp)
    · split at h
      · cases h
        exact b64InvalidCountMessage_ne nd
      · cases h
        decide
  | cons c rest ih =>
    intro qp lc pads nd acc e h
    simp only [a2bBase64] at h
    rcases hv : base64CharValue c with _ | v <;> rw [hv] at h <;> repeat' split at h
    all_goals
      first
        | exact absurd h (by simp)
        | exact ih _ _ _ _ _ _ h

theorem b64decode_error_ne (s e : String) (h : b64decode s = .error e) : e ≠ "" := by
  rw [b64decode] at h
  split at h
  · exact a2bBase64_error_ne _ _ _ _ _ _ _ h
  · cases h
    decide

theorem collectPages_warnings_length (pages : List (Except String String)) :
    ∀ n, ((collectPages n pages).2).length = pages.countP isPageError := by
  induction pages with
  | nil => intro n; rfl
  | cons p rest ih =>
    intro n
    cases p with
    | error e => simp [collectPages, isPageError, List.countP_cons, ih]
    | ok t => simp [collectPages, isPageError, List.countP_cons, ih]

theorem isPrefixOf_append_self (p l : List Char) : p.isPrefixOf (p ++ l) = true := by
  induction p with
  | nil => simp [List.isPrefixOf]
  | cons a t ih => simp [List.isPrefixOf, ih]

theorem splitAfterFirstComma_marker (l : List Char) :
    splitAfterFirstComma (dataUriMarker.data ++ l) = l := rfl

theorem collapseSpaceTab_true_replicate (k : Nat) (l : List Char) :
    collapseSpaceTab true (List.replicate k ' ' ++ l) = collapseSpaceTab true l := by
  induction k with
  | zero => rfl
  | succ n ih => simpa [List.replicate_succ, collapseSpaceTab, isSpaceTab] using ih

/-! ## Claims C1-C9 -/

/-- C1: for every invocation of `extract_text_from_pdf`, `success = true`
implies the `error` field is absent and `text` is the cleaned string
produced by the Normalizer from the concatenated page texts, while
`success = false` implies `text = ""` and `metadata` is the empty
dictionary. -/
theorem c1_result_invariant (parse : PdfParse) (s : String) :
    ((extract_text_from_pdf parse s).1.success = true →
      (extract_text_from_pdf parse s).1.error = none ∧
      ∃ bytes pages, b64decode s = Except.ok bytes ∧ parse bytes = Except.ok pages ∧
        (extract_text_from_pdf parse s).1.text
          = clean_text_for_llm (joinTexts (collectPages 0 pages).1)) ∧
    ((extract_text_from_pdf parse s).1.success = false →
      (extract_text_from_pdf parse s).1.text = "" ∧
      (extract_text_from_pdf parse s).1.metadata = none) := by
  rcases hb : b64decode s with e | bytes
  · constructor
    · intro h
      simp [extract_text_from_pdf, hb] at h
    · intro _
      simp [extract_text_from_pdf, hb]
  · rcases hp : parse bytes with e | pages
    · constructor
      · intro h
        simp [extract_text_from_pdf, hb, hp] at h
      · intro _
        simp [extract_text_from_pdf, hb, hp]
    · constructor
      · intro _
        refine ⟨?_, bytes, pages, rfl, hp, ?_⟩ <;> simp [extract_text_from_pdf, hb, hp]
      · intro h
        simp [extract_text_from_pdf, hb, hp] at h

/-- Witness for C1: both branches of the invariant at concrete inputs (a
successful three-page extraction, and a document-level failure). -/
theorem c1_witness :
    ((extract_text_from_pdf parseOkOracle "").1.error = none ∧
      ∃ bytes pages, b64decode "" = Except.ok bytes ∧ parseOkOracle bytes = Except.ok pages ∧
        (extract_text_from_pdf parseOkOracle "").1.text
          = clean_text_for_llm (joinTexts (collectPages 0 pages).1)) ∧
    ((extract_text_from_pdf parseFailOracle "x").1.text = "" ∧
      (extract_text_from_pdf parseFailOracle "x").1.metadata = none) :=
  ⟨(c1_result_invariant parseOkOracle "").1 (by decide),
   (c1_result_invariant parseFailOracle "x").2 (by decide)⟩

/-- C2 (corrected): cleaning the documented example input does not yield
the sequence claimed by the specification: the digit-line removal runs
after blank-line collapsing, so blanking the `123` line leaves an extra
blank line. -/
theorem c2_counterexample :
    clean_text_for_llm "Page 1\nHello World\n\n\n\n123\nFoo.Bar" ≠ "Hello World\n\nFoo. Bar" := by
  decide

/-- C2 (amended): cleaning the documented example yields
`"Hello World\n\n\nFoo. Bar"` — three newlines, because the standalone
digit line is blanked only after excess blank lines have been collapsed. -/
theorem c2_cleaning_example :
    clean_text_for_llm "Page 1\nHello World\n\n\n\n123\nFoo.Bar" = "Hello World\n\n\nFoo. Bar" := by
  decide

/-- C3 (corrected): the Normalizer is not idempotent on every input: the
leading-whitespace strip turns ` 123` into a standalone digit line that a
second run removes. -/
theorem c3_counterexample :
    clean_text_for_llm (clean_text_for_llm "a\n 123\nb") ≠ clean_text_for_llm "a\n 123\nb" := by
  decide

/-- C3 (amended): re-running the Normalizer yields the same output exactly
on already-clean text, i.e. on fixed points of the cleaning pipeline. -/
theorem c3_idempotent_on_clean_text (s : String) (h : clean_text_for_llm s = s) :
    clean_text_for_llm (clean_text_for_llm s) = clean_text_for_llm s := by
  simp only [h]

/-- Witness for C3 (amended) at the already-clean input `"a"`. -/
theorem c3_witness :
    clean_text_for_llm "a" = "a" ∧
    clean_text_for_llm (clean_text_for_llm "a") = clean_text_for_llm "a" :=
  ⟨by decide, c3_idempotent_on_clean_text "a" (by decide)⟩

/-- C4 (corrected): a line indented by four spaces loses all of its leading
whitespace: step 1 collapses the run to one space and step 8 strips it. -/
theorem c4_counterexample :
    clean_text_for_llm "x\n    indented" = "x\nindented" := by
  decide

/-- C4 (amended): the de-indent is total, not bounded: for any number of
leading spaces, the cleaned line keeps none of them (space/tab runs are
first collapsed to a single space, which the 1-2 character strip then
removes). -/
theorem c4_deindent_total (k : Nat) :
    clean_text_for_llm ("x\n" ++ (⟨List.replicate k ' '⟩ : String) ++ "indented")
      = "x\nindented" := by
  cases k with
  | zero => decide
  | succ n =>
    have h2 : clean_text_for_llm ("x\n" ++ (⟨List.replicate (n + 1) ' '⟩ : String) ++ "indented")
        = clean_text_for_llm "x\n indented" := by
      unfold clean_text_for_llm cleanList
      have hdata : ("x\n" ++ (⟨List.replicate (n + 1) ' '⟩ : String) ++ "indented").data
          = 'x' :: '\n' :: (' ' :: List.replicate n ' ' ++ "indented".data) := by
        rw [String.data_append, String.data_append]
        simp [List.replicate_succ]
      rw [hdata]
      have h1 : collapseSpaceTab false
            ('x' :: '\n' :: (' ' :: List.replicate n ' ' ++ "indented".data))
          = collapseSpaceTab false ("x\n indented").data := by
        show 'x' :: '\n' :: ' ' :: collapseSpaceTab true (List.replicate n ' ' ++ "indented".data)
          = _
        rw [collapseSpaceTab_true_replicate]
        rfl
      rw [h1]
    rw [h2]
    decide

/-- C5: whenever base64 decoding fails, the returned result has
`success = false`, empty `text`, empty `metadata`, a non-empty `error`
message, and no diagnostics are emitted. -/
theorem c5_invalid_base64 (parse : PdfParse) (s e : String) (h : b64decode s = .error e) :
    extract_text_from_pdf parse s
      = ({ success := false, text := "", metadata := none, error := some e }, []) ∧ e ≠ "" :=
  ⟨by simp [extract_text_from_pdf, h], b64decode_error_ne s e h⟩

/-- Witness for C5 at the malformed input `"AB"` (incorrect padding). -/
theorem c5_witness :
    extract_text_from_pdf parseFailOracle "AB"
      = ({ success := false, text := "", metadata := none,
           error := some "Incorrect padding" }, []) ∧ ("Incorrect padding" : String) ≠ "" :=
  c5_invalid_base64 parseFailOracle "AB" "Incorrect padding" (by decide)

/-- C6: for every document the parser opens, `metadata.page_count` equals
the number of pages exposed by the reader (failed and empty pages
included), the overall result still has `success = true`, and one warning
is written to the diagnostic stream per page whose extraction raised. -/
theorem c6_page_count_and_page_errors (parse : PdfParse) (s : String) (bytes : List Nat)
    (pages : List (Except String String))
    (hb : b64decode s = Except.ok bytes) (hp : parse bytes = Except.ok pages) :
    (extract_text_from_pdf parse s).1.success = true ∧
    (∃ m, (extract_text_from_pdf parse s).1.metadata = some m ∧
      m.page_count = pages.length) ∧
    (extract_text_from_pdf parse s).2.length = pages.countP isPageError := by
  simp only [extract_text_from_pdf, hb, hp]
  exact ⟨trivial, ⟨_, rfl, rfl⟩, collectPages_warnings_length pages 0⟩

/-- Witness for C6: a three-page document with one failing page. -/
theorem c6_witness :
    (extract_text_from_pdf parseOkOracle "").1.success = true ∧
    (∃ m, (extract_text_from_pdf parseOkOracle "").1.metadata = some m ∧
      m.page_count = samplePages.length) ∧
    (extract_text_from_pdf parseOkOracle "").2.length = samplePages.countP isPageError :=
  c6_page_count_and_page_errors parseOkOracle "" [] samplePages (by decide) rfl

/-- C7: on success, `word_count` is the number of whitespace-split tokens
of the cleaned text, `char_count` its length, and `avg_words_per_page` is
`word_count / page_count` for a positive page count and `0` for an empty
document (no division is performed in that case). -/
theorem c7_metadata_formulas (parse : PdfParse) (s : String) (bytes : List Nat)
    (pages : List (Except String String))
    (hb : b64decode s = Except.ok bytes) (hp : parse bytes = Except.ok pages) :
    ∃ m, (extract_text_from_pdf parse s).1.metadata = some m ∧
      m.word_count = (pySplit (extract_text_from_pdf parse s).1.text.data).length ∧
      m.char_count = (extract_text_from_pdf parse s).1.text.length ∧
      m.page_count = pages.length ∧
      (pages.length = 0 → m.avg_words_per_page = 0) ∧
      (0 < pages.length →
        m.avg_words_per_page = (m.word_count : ℚ) / (pages.length : ℚ)) := by
  simp only [extract_text_from_pdf, hb, hp]
  refine ⟨_, rfl, ?_, ?_, ?_, ?_, ?_⟩
  · with_reducible rfl
  · with_reducible rfl
  · with_reducible rfl
  · intro h0
    simp [h0]
  · intro h0
    rw [if_pos h0]

/-- Witness for C7: a zero-page document (average is 0, no division) and a
three-page document. -/
theorem c7_witness :
    (∃ m, (extract_text_from_pdf parseEmptyOracle "").1.metadata = some m ∧
      m.word_count = (pySplit (extract_text_from_pdf parseEmptyOracle "").1.text.data).length ∧
      m.char_count = (extract_text_from_pdf parseEmptyOracle "").1.text.length ∧
      m.page_count = ([] : List (Except String String)).length ∧
      (([] : List (Except String String)).length = 0 → m.avg_words_per_page = 0) ∧
      (0 < ([] : List (Except String String)).length →
        m.avg_words_per_page = (m.word_count : ℚ)
          / (([] : List (Except String String)).length : ℚ))) ∧
    (∃ m, (extract_text_from_pdf parseOkOracle "").1.metadata = some m ∧
      m.word_count = (pySplit (extract_text_from_pdf parseOkOracle "").1.text.data).length ∧
      m.char_count = (extract_text_from_pdf parseOkOracle "").1.text.length ∧
      m.page_count = samplePages.length ∧
      (samplePages.length = 0 → m.avg_words_per_page = 0) ∧
      (0 < samplePages.length →
        m.avg_words_per_page = (m.word_count : ℚ) / (samplePages.length : ℚ))) :=
  ⟨c7_metadata_formulas parseEmptyOracle "" [] [] (by decide) rfl,
   c7_metadata_formulas parseOkOracle "" [] samplePages (by decide) rfl⟩

/-- C8 (corrected): prefixing the data-URI marker is not the identity on
results for every payload, because the marker is stripped only once: a
payload that itself starts with the marker is decoded as-is in one case
and stripped in the other. -/
theorem c8_counterexample :
    mainRun parseFailOracle ["pdf-extractor.py", dataUriMarker ++ dataUriMarker]
      ≠ mainRun parseFailOracle ["pdf-extractor.py", dataUriMarker] := by
  decide

/-- C8 (amended): for every payload that does not itself begin with the
data-URI marker, invoking the program on the marker-prefixed payload and
on the bare payload produces identical results. -/
theorem c8_data_uri_strip (parse : PdfParse) (prog X : String)
    (h : dataUriMarker.data.isPrefixOf X.data = false) :
    mainRun parse [prog, dataUriMarker ++ X] = mainRun parse [prog, X] := by
  have h1 : processArg (dataUriMarker ++ X) = X := by
    simp only [processArg, String.data_append, isPrefixOf_append_self,
      splitAfterFirstComma_marker]
    simp
  have h2 : processArg X = X := by
    simp only [processArg, h]
    simp
  simp [mainRun, h1, h2]

/-- Witness for C8 (amended) at the payload `"AAAA"`. -/
theorem c8_witness :
    mainRun parseFailOracle ["pdf-extractor.py", dataUriMarker ++ "AAAA"]
      = mainRun parseFailOracle ["pdf-extractor.py", "AAAA"] :=
  c8_data_uri_strip parseFailOracle "pdf-extractor.py" "AAAA" (by decide)

/-- C9: with an argument count other than one positional argument the
process exits with code 1, writes the usage line to the diagnostic stream
and nothing to standard output; with exactly one argument it exits with
code 0 (also on extraction failure), the result record being the only
standard output. -/
theorem c9_cli_contract (parse : PdfParse) (argv : List String) :
    (argv.length ≠ 2 → mainRun parse argv = (1, [], [usageMessage])) ∧
    (∀ prog arg, argv = [prog, arg] →
      (mainRun parse argv).1 = 0 ∧
      (mainRun parse argv).2.1 = [(extract_text_from_pdf parse (processArg arg)).1] ∧
      (mainRun parse argv).2.2 = (extract_text_from_pdf parse (processArg arg)).2) := by
  constructor
  · intro h
    rcases argv with _ | ⟨a, _ | ⟨b, _ | ⟨c, t⟩⟩⟩
    · rfl
    · rfl
    · simp at h
    · rfl
  · rintro prog arg rfl
    exact ⟨rfl, rfl, rfl⟩

/-- Witness for C9: no arguments (exit 1, usage, empty stdout), and a
failing extraction with one argument (exit 0). -/
theorem c9_witness :
    mainRun parseFailOracle [] = (1, [], [usageMessage]) ∧
    ((mainRun parseFailOracle ["pdf-extractor.py", "A"]).1 = 0 ∧
      (mainRun parseFailOracle ["pdf-extractor.py", "A"]).2.1
        = [(extract_text_from_pdf parseFailOracle (processArg "A")).1] ∧
      (mainRun parseFailOracle ["pdf-extractor.py", "A"]).2.2
        = (extract_text_from_pdf parseFailOracle (processArg "A")).2) :=
  ⟨(c9_cli_contract parseFailOracle []).1 (by decide),
   (c9_cli_contract parseFailOracle ["pdf-extractor.py", "A"]).2 "pdf-extractor.py" "A" rfl⟩

/-! ## Character-level invariants of the cleaning pipeline (for C10) -/

theorem not_tab_collapseSpaceTab (l : List Char) : ∀ b, '\t' ∉ collapseSpaceTab b l := by
  induction l with
  | nil => intro b h; simp [collapseSpaceTab] at h
  | cons a rest ih =>
    intro b h
    simp only [collapseSpaceTab] at h
    by_cases ha : isSpaceTab a
    · rw [if_pos ha] at h
      by_cases hb : b
      · rw [if_pos hb] at h
        exact ih true h
      · rw [if_neg hb] at h
        rcases List.mem_cons.mp h with h1 | h1
        · exact absurd h1 (by decide)
        · exact ih true h1
    · rw [if_neg ha] at h
      rcases List.mem_cons.mp h with h1 | h1
      · apply ha
        rw [← h1]
        decide
      · exact ih false h1

theorem mem_collapseSpaceTab {c : Char} (l : List Char) :
    ∀ b, c ∈ collapseSpaceTab b l → c ∈ l ∨ c = ' ' := by
  induction l with
  | nil => intro b h; simp [collapseSpaceTab] at h
  | cons a rest ih =>
    intro b h
    simp only [collapseSpaceTab] at h
    by_cases ha : isSpaceTab a
    · rw [if_pos ha] at h
      by_cases hb : b
      · rw [if_pos hb] at h
        rcases ih true h with h1 | h1
        · exact Or.inl (List.mem_cons_of_mem _ h1)
        · exact Or.inr h1
      · rw [if_neg hb] at h
        rcases List.mem_cons.mp h with h1 | h1
        · exact Or.inr h1
        · rcases ih true h1 with h2 | h2
          · exact Or.inl (List.mem_cons_of_mem _ h2)
          · exact Or.inr h2
    · rw [if_neg ha] at h
      rcases List.mem_cons.mp h with h1 | h1
      · exact Or.inl (h1 ▸ List.mem_cons_self _ _)
      · rcases ih false h1 with h2 | h2
        · exact Or.inl (List.mem_cons_of_mem _ h2)
        · exact Or.inr h2

theorem replaceCRLF_cons_newline (rest : List Char) :
    replaceCRLF ('\n' :: rest) = '\n' :: replaceCRLF rest := by
  cases rest <;> simp [replaceCRLF]

theorem mem_replaceCRLF {c : Char} (l : List Char) (h : c ∈ replaceCRLF l) : c ∈ l := by
  induction l with
  | nil => simp [replaceCRLF] at h
  | cons a rest ih =>
    rcases rest with _ | ⟨b, rest2⟩
    · simpa [replaceCRLF] using h
    · by_cases hab : a == '\r' && b == '\n'
      · rw [show replaceCRLF (a :: b :: rest2) = '\n' :: replaceCRLF rest2 from by
          simp [replaceCRLF, hab]] at h
        have hb : b = '\n' := by
          have := (Bool.and_eq_true _ _).mp hab
          exact eq_of_beq this.2
        rcases List.mem_cons.mp h with h1 | h1
        · subst hb
          subst h1
          exact List.mem_cons_of_mem _ (List.mem_cons_self _ _)
        · have : c ∈ replaceCRLF (b :: rest2) := by
            subst hb
            rw [replaceCRLF_cons_newline]
            exact List.mem_cons_of_mem _ h1
          exact List.mem_cons_of_mem _ (ih this)
      · rw [show replaceCRLF (a :: b :: rest2) = a :: replaceCRLF (b :: rest2) from by
          simp [replaceCRLF, hab]] at h
        rcases List.mem_cons.mp h with h1 | h1
        · exact h1 ▸ List.mem_cons_self _ _
        · exact List.mem_cons_of_mem _ (ih h1)

theorem not_cr_replaceCR (l : List Char) : '\r' ∉ replaceCR l := by
  intro h
  rcases List.mem_map.mp h with ⟨a, _, ha⟩
  by_cases hr : a == '\r'
  · rw [if_pos hr] at ha
    exact absurd ha (by decide)
  · rw [if_neg hr] at ha
    subst ha
    exact hr (by decide)

theorem mem_replaceCR {c : Char} (l : List Char) (h : c ∈ replaceCR l) : c ∈ l ∨ c = '\n' := by
  rcases List.mem_map.mp h with ⟨a, hmem, ha⟩
  by_cases hr : a == '\r'
  · rw [if_pos hr] at ha
    exact Or.inr ha.symm
  · rw [if_neg hr] at ha
    exact Or.inl (ha ▸ hmem)

theorem mem_collapseNewlines {c : Char} (l : List Char) :
    ∀ k, c ∈ collapseNewlines k l → c ∈ l := by
  induction l with
  | nil => intro k h; simp [collapseNewlines] at h
  | cons a rest ih =>
    intro k h
    simp only [collapseNewlines] at h
    by_cases ha : a == '\n'
    · rw [if_pos ha] at h
      by_cases hk : 2 ≤ k
      · rw [if_pos hk] at h
        exact List.mem_cons_of_mem _ (ih k h)
      · rw [if_neg hk] at h
        rcases List.mem_cons.mp h with h1 | h1
        · exact Or.elim (Or.inl (h1 ▸ (eq_of_beq ha ▸ List.mem_cons_self _ _)))
            id (fun h => h)
        · exact List.mem_cons_of_mem _ (ih (k + 1) h1)
    · rw [if_neg ha] at h
      rcases List.mem_cons.mp h with h1 | h1
      · exact h1 ▸ List.mem_cons_self _ _
      · exact List.mem_cons_of_mem _ (ih 0 h1)

theorem mem_splitLines {c : Char} (l : List Char) :
    ∀ line ∈ splitLines l, c ∈ line → c ∈ l := by
  induction l with
  | nil =>
    intro line hline hc
    simp [splitLines] at hline
    subst hline
    simp at hc
  | cons a rest ih =>
    intro line hline hc
    simp only [splitLines] at hline
    by_cases ha : a == '\n'
    · rw [if_pos ha] at hline
      rcases List.mem_cons.mp hline with h1 | h1
      · subst h1
        simp at hc
      · exact List.mem_cons_of_mem _ (ih line h1 hc)
    · rw [if_neg ha] at hline
      rcases heq : splitLines rest with _ | ⟨line0, ls⟩
      · rw [heq] at hline
        rcases List.mem_cons.mp hline with h1 | h1
        · subst h1
          rcases List.mem_cons.mp hc with h2 | h2
          · exact h2 ▸ List.mem_cons_self _ _
          · simp at h2
        · simp at h1
      · rw [heq] at hline
        rcases List.mem_cons.mp hline with h1 | h1
        · subst h1
          rcases List.mem_cons.mp hc with h2 | h2
          · exact h2 ▸ List.mem_cons_self _ _
          · exact List.mem_cons_of_mem _ (ih line0 (heq ▸ List.mem_cons_self _ _) h2)
        · exact List.mem_cons_of_mem _ (ih line (heq ▸ List.mem_cons_of_mem _ h1) hc)

theorem mem_joinLines {c : Char} (L : List (List Char)) (h : c ∈ joinLines L) :
    c = '\n' ∨ ∃ line ∈ L, c ∈ line := by
  induction L with
  | nil => simp [joinLines] at h
  | cons line rest ih =>
    rcases rest with _ | ⟨l2, rest2⟩
    · exact Or.inr ⟨line, List.mem_cons_self _ _, by simpa [joinLines] using h⟩
    · rw [show joinLines (line :: l2 :: rest2) = line ++ '\n' :: joinLines (l2 :: rest2) from
        rfl] at h
      rcases List.mem_append.mp h with h1 | h1
      · exact Or.inr ⟨line, List.mem_cons_self _ _, h1⟩
      · rcases List.mem_cons.mp h1 with h2 | h2
        · exact Or.inl h2
        · rcases ih h2 with h3 | ⟨line2, hl2, hc2⟩
          · exact Or.inl h3
          · exact Or.inr ⟨line2, List.mem_cons_of_mem _ hl2, hc2⟩

theorem mem_perLine {c : Char} (f : List Char → List Char)
    (hf : ∀ line, ∀ x ∈ f line, x ∈ line) (l : List Char) (h : c ∈ perLine f l) :
    c ∈ l ∨ c = '\n' := by
  rcases mem_joinLines _ h with h1 | ⟨line, hline, hc⟩
  · exact Or.inr h1
  · rcases List.mem_map.mp hline with ⟨line0, hline0, hmap⟩
    exact Or.inl (mem_splitLines l line0 hline0 (hf line0 c (hmap ▸ hc)))

theorem mem_removePageLine (line : List Char) : ∀ x ∈ removePageLine line, x ∈ line := by
  intro x hx
  rw [removePageLine] at hx
  split at hx
  · simp at hx
  · exact hx

theorem mem_stripTrailingSpaceTab (line : List Char) :
    ∀ x ∈ stripTrailingSpaceTab line, x ∈ line := by
  intro x hx
  rw [stripTrailingSpaceTab] at hx
  rw [List.mem_reverse] at hx
  have := (List.dropWhile_sublist isSpaceTab).subset hx
  rwa [List.mem_reverse] at this

theorem mem_stripLeadingSpaceTab12 (line : List Char) :
    ∀ x ∈ stripLeadingSpaceTab12 line, x ∈ line := by
  intro x hx
  rcases line with _ | ⟨a, _ | ⟨b, rest⟩⟩
  · simp [stripLeadingSpaceTab12] at hx
  · simp only [stripLeadingSpaceTab12] at hx
    split at hx
    · simp at hx
    · exact hx
  · simp only [stripLeadingSpaceTab12] at hx
    split at hx
    · split at hx
      · exact List.mem_cons_of_mem _ (List.mem_cons_of_mem _ hx)
      · exact List.mem_cons_of_mem _ hx
    · exact hx

theorem lines_removeDigitLines (L : List (List Char)) :
    ∀ b line, line ∈ removeDigitLines b L → line = [] ∨ line ∈ L := by
  induction L with
  | nil => intro b line h; simp [removeDigitLines] at h
  | cons l0 rest ih =>
    intro b line h
    simp only [removeDigitLines] at h
    split at h
    · rcases ih true line h with h1 | h1
      · exact Or.inl h1
      · exact Or.inr (List.mem_cons_of_mem _ h1)
    · split at h
      · rcases List.mem_cons.mp h with h1 | h1
        · exact Or.inl h1
        · rcases ih true line h1 with h2 | h2
          · exact Or.inl h2
          · exact Or.inr (List.mem_cons_of_mem _ h2)
      · rcases List.mem_cons.mp h with h1 | h1
        · exact Or.inr (h1 ▸ List.mem_cons_self _ _)
        · rcases ih false line h1 with h2 | h2
          · exact Or.inl h2
          · exact Or.inr (List.mem_cons_of_mem _ h2)

theorem lines_removeOrphanPunctLines (L : List (List Char)) :
    ∀ st line, line ∈ removeOrphanPunctLines st L →
      line = [] ∨ line ∈ pendingOf st ∨ line ∈ L := by
  induction L with
  | nil =>
    intro st line h
    cases st with
    | plain pending =>
      exact Or.inr (Or.inl (by simpa [removeOrphanPunctLines, pendingOf] using h))
    | trail lastEmpty => simp [removeOrphanPunctLines] at h
  | cons l0 rest ih =>
    intro st line h
    cases st with
    | plain pending =>
      simp only [removeOrphanPunctLines] at h
      split at h
      · rcases ih _ line h with h1 | h1 | h1
        · exact Or.inl h1
        · simp only [pendingOf] at h1 ⊢
          rcases List.mem_append.mp h1 with h2 | h2
          · exact Or.inr (Or.inl h2)
          · simp at h2
            exact Or.inr (Or.inr (h2 ▸ List.mem_cons_self _ _))
        · exact Or.inr (Or.inr (List.mem_cons_of_mem _ h1))
      · split at h
        · rcases List.mem_cons.mp h with h1 | h1
          · exact Or.inl h1
          · rcases ih _ line h1 with h2 | h2 | h2
            · exact Or.inl h2
            · simp [pendingOf] at h2
            · exact Or.inr (Or.inr (List.mem_cons_of_mem _ h2))
        · rcases List.mem_append.mp h with h1 | h1
          · exact Or.inr (Or.inl h1)
          · rcases List.mem_cons.mp h1 with h2 | h2
            · exact Or.inr (Or.inr (h2 ▸ List.mem_cons_self _ _))
            · rcases ih _ line h2 with h3 | h3 | h3
              · exact Or.inl h3
              · simp [pendingOf] at h3
              · exact Or.inr (Or.inr (List.mem_cons_of_mem _ h3))
    | trail lastEmpty =>
      simp only [removeOrphanPunctLines] at h
      split at h
      · rcases ih _ line h with h1 | h1 | h1
        · exact Or.inl h1
        · simp [pendingOf] at h1
        · exact Or.inr (Or.inr (List.mem_cons_of_mem _ h1))
      · split at h
        · split at h
          · rcases ih _ line h with h1 | h1 | h1
            · exact Or.inl h1
            · simp [pendingOf] at h1
            · exact Or.inr (Or.inr (List.mem_cons_of_mem _ h1))
          · rcases List.mem_cons.mp h with h1 | h1
            · exact Or.inl h1
            · rcases ih _ line h1 with h2 | h2 | h2
              · exact Or.inl h2
              · simp [pendingOf] at h2
              · exact Or.inr (Or.inr (List.mem_cons_of_mem _ h2))
        · rcases List.mem_cons.mp h with h1 | h1
          · exact Or.inr (Or.inr (h1 ▸ List.mem_cons_self _ _))
          · rcases ih _ line h1 with h2 | h2 | h2
            · exact Or.inl h2
            · simp [pendingOf] at h2
            · exact Or.inr (Or.inr (List.mem_cons_of_mem _ h2))

theorem mem_spaceLowerUpper (l : List Char) :
    ∀ x ∈ spaceLowerUpper l, x ∈ l ∨ x = ' ' := by
  have H : ∀ (n : Nat) (l : List Char), l.length ≤ n → ∀ x ∈ spaceLowerUpper l,
      x ∈ l ∨ x = ' ' := by
    intro n
    induction n with
    | zero =>
      intro l hl x hx
      have : l = [] := List.eq_nil_of_length_eq_zero (Nat.le_zero.mp hl)
      subst this
      simp [spaceLowerUpper] at hx
    | succ n ih =>
      intro l hl x hx
      rcases l with _ | ⟨a, _ | ⟨b, rest⟩⟩
      · simp [spaceLowerUpper] at hx
      · simp only [spaceLowerUpper] at hx
        exact Or.inl hx
      · simp only [spaceLowerUpper] at hx
        split at hx
        · rcases List.mem_cons.mp hx with h1 | h1
          · exact Or.inl (h1 ▸ List.mem_cons_self _ _)
          · rcases List.mem_cons.mp h1 with h2 | h2
            · exact Or.inr h2
            · rcases List.mem_cons.mp h2 with h3 | h3
              · exact Or.inl (h3 ▸ List.mem_cons_of_mem _ (List.mem_cons_self _ _))
              · rcases ih rest (by simp at hl ⊢; omega) x h3 with h4 | h4
                · exact Or.inl (List.mem_cons_of_mem _ (List.mem_cons_of_mem _ h4))
                · exact Or.inr h4
        · rcases List.mem_cons.mp hx with h1 | h1
          · exact Or.inl (h1 ▸ List.mem_cons_self _ _)
          · rcases ih (b :: rest) (by simp at hl ⊢; omega) x h1 with h2 | h2
            · exact Or.inl (List.mem_cons_of_mem _ h2)
            · exact Or.inr h2
  intro x hx
  exact H l.length l le_rfl x hx

theorem mem_spacePunctUpper (l : List Char) :
    ∀ x ∈ spacePunctUpper l, x ∈ l ∨ x = ' ' := by
  have H : ∀ (n : Nat) (l : List Char), l.length ≤ n → ∀ x ∈ spacePunctUpper l,
      x ∈ l ∨ x = ' ' := by
    intro n
    induction n with
    | zero =>
      intro l hl x hx
      have : l = [] := List.eq_nil_of_length_eq_zero (Nat.le_zero.mp hl)
      subst this
      simp [spacePunctUpper] at hx
    | succ n ih =>
      intro l hl x hx
      rcases l with _ | ⟨a, _ | ⟨b, rest⟩⟩
      · simp [spacePunctUpper] at hx
      · simp only [spacePunctUpper] at hx
        exact Or.inl hx
      · simp only [spacePunctUpper] at hx
        split at hx
        · rcases List.mem_cons.mp hx with h1 | h1
          · exact Or.inl (h1 ▸ List.mem_cons_self _ _)
          · rcases List.mem_cons.mp h1 with h2 | h2
            · exact Or.inr h2
            · rcases List.mem_cons.mp h2 with h3 | h3
              · exact Or.inl (h3 ▸ List.mem_cons_of_mem _ (List.mem_cons_self _ _))
              · rcases ih rest (by simp at hl ⊢; omega) x h3 with h4 | h4
                · exact Or.inl (List.mem_cons_of_mem _ (List.mem_cons_of_mem _ h4))
                · exact Or.inr h4
        · rcases List.mem_cons.mp hx with h1 | h1
          · exact Or.inl (h1 ▸ List.mem_cons_self _ _)
          · rcases ih (b :: rest) (by simp at hl ⊢; omega) x h1 with h2 | h2
            · exact Or.inl (List.mem_cons_of_mem _ h2)
            · exact Or.inr h2
  intro x hx
  exact H l.length l le_rfl x hx

theorem mem_collapseDoubleSpace {c : Char} (l : List Char) :
    ∀ b, c ∈ collapseDoubleSpace b l → c ∈ l := by
  induction l with
  | nil => intro b h; simp [collapseDoubleSpace] at h
  | cons a rest ih =>
    intro b h
    simp only [collapseDoubleSpace] at h
    by_cases ha : a == ' '
    · rw [if_pos ha] at h
      by_cases hb : b
      · rw [if_pos hb] at h
        exact List.mem_cons_of_mem _ (ih true h)
      · rw [if_neg hb] at h
        rcases List.mem_cons.mp h with h1 | h1
        · exact List.mem_cons.mpr (Or.inl (h1.trans (eq_of_beq ha).symm))
        · exact List.mem_cons_of_mem _ (ih true h1)
    · rw [if_neg ha] at h
      rcases List.mem_cons.mp h with h1 | h1
      · exact h1 ▸ List.mem_cons_self _ _
      · exact List.mem_cons_of_mem _ (ih false h1)

theorem mem_pyStrip {c : Char} (l : List Char) (h : c ∈ pyStrip l) : c ∈ l := by
  rw [pyStrip] at h
  rw [List.mem_reverse] at h
  have h1 := (List.dropWhile_sublist isPySpace).subset h
  rw [List.mem_reverse] at h1
  exact (List.dropWhile_sublist isPySpace).subset h1

theorem not_mem_cleanSteps4to13 {c : Char} (hc1 : c ≠ ' ') (hc2 : c ≠ '\n')
    {l : List Char} (h : c ∉ l) : c ∉ cleanSteps4to13 l := by
  intro hmem
  simp only [cleanSteps4to13] at hmem
  replace hmem := mem_pyStrip _ hmem
  replace hmem := mem_collapseDoubleSpace _ _ hmem
  rcases mem_joinLines _ hmem with h1 | ⟨line, hline, hcl⟩
  · exact hc2 h1
  rcases lines_removeOrphanPunctLines _ _ _ hline with h2 | h2 | h2
  · subst h2
    simp at hcl
  · simp [pendingOf] at h2
  replace hcl := mem_splitLines _ _ h2 hcl
  rcases mem_spacePunctUpper _ _ hcl with h3 | h3
  case inr => exact hc1 h3
  rcases mem_spaceLowerUpper _ _ h3 with h4 | h4
  case inr => exact hc1 h4
  rcases mem_perLine _ mem_stripLeadingSpaceTab12 _ h4 with h5 | h5
  case inr => exact hc2 h5
  rcases mem_perLine _ mem_stripTrailingSpaceTab _ h5 with h6 | h6
  case inr => exact hc2 h6
  rcases mem_joinLines _ h6 with h7 | ⟨line2, hline2, hcl2⟩
  · exact hc2 h7
  rcases lines_removeDigitLines _ _ _ hline2 with h8 | h8
  · subst h8
    simp at hcl2
  replace hcl2 := mem_splitLines _ _ h8 hcl2
  rcases mem_perLine _ mem_removePageLine _ hcl2 with h9 | h9
  case inr => exact hc2 h9
  exact h (mem_collapseNewlines _ _ h9)

theorem hasDoubleSpace_iff (l : List Char) :
    hasDoubleSpace l = true ↔ [' ', ' '] <:+: l := by
  induction l with
  | nil => simp [hasDoubleSpace]
  | cons a rest ih =>
    rw [List.infix_cons_iff]
    constructor
    · intro h
      rcases (Bool.or_eq_true _ _).mp h with h1 | h1
      · have ha : a = ' ' := eq_of_beq ((Bool.and_eq_true _ _).mp h1).1
        have hh := ((Bool.and_eq_true _ _).mp h1).2
        rcases rest with _ | ⟨b, rest2⟩
        · simp at hh
        · have hb : b = ' ' := by simpa using hh
          subst ha
          subst hb
          exact Or.inl (List.cons_prefix_cons.mpr ⟨rfl,
            List.cons_prefix_cons.mpr ⟨rfl, List.nil_prefix⟩⟩)
      · exact Or.inr (ih.mp h1)
    · intro h
      rcases h with h | h
      · rcases List.cons_prefix_cons.mp h with ⟨ha, h2⟩
        rcases rest with _ | ⟨b, rest2⟩
        · simp at h2
        · rcases List.cons_prefix_cons.mp h2 with ⟨hb, _⟩
          subst ha
          subst hb
          simp [hasDoubleSpace]
      · have h2 := ih.mpr h
        rw [show hasDoubleSpace (a :: rest)
            = ((a == ' ' && rest.head?.any fun x => x == ' ') || hasDoubleSpace rest) from rfl,
          h2]
        simp

theorem hds_false_of_infix {l₁ l₂ : List Char} (h : l₁ <:+: l₂)
    (hd : hasDoubleSpace l₂ = false) : hasDoubleSpace l₁ = false := by
  by_contra hne
  have h1 : hasDoubleSpace l₁ = true := by
    revert hne
    cases hasDoubleSpace l₁ <;> simp
  have h2 := (hasDoubleSpace_iff l₂).mpr (((hasDoubleSpace_iff l₁).mp h1).trans h)
  rw [hd] at h2
  simp at h2

theorem pyStrip_isPrefix_dropWhile (l : List Char) :
    pyStrip l <+: l.dropWhile isPySpace := by
  rw [pyStrip]
  have h2 : ((l.dropWhile isPySpace).reverse.dropWhile isPySpace) <:+
      (l.dropWhile isPySpace).reverse := List.dropWhile_suffix _
  have h3 := List.reverse_prefix.mpr h2
  rwa [List.reverse_reverse] at h3

theorem pyStrip_isInfix (l : List Char) : pyStrip l <:+: l :=
  (pyStrip_isPrefix_dropWhile l).isInfix.trans (List.dropWhile_suffix isPySpace).isInfix

theorem collapseDoubleSpace_true_head (l : List Char) :
    ((collapseDoubleSpace true l).head?.any fun x => x == ' ') = false := by
  induction l with
  | nil => rfl
  | cons a rest ih =>
    simp only [collapseDoubleSpace]
    by_cases ha : a == ' '
    · rw [if_pos ha]
      simpa using ih
    · rw [if_neg ha]
      have ha' : (a == ' ') = false := by
        revert ha
        cases a == ' ' <;> simp
      simp [ha']

theorem hds_collapseDoubleSpace (l : List Char) :
    ∀ b, hasDoubleSpace (collapseDoubleSpace b l) = false := by
  induction l with
  | nil => intro b; rfl
  | cons a rest ih =>
    intro b
    simp only [collapseDoubleSpace]
    by_cases ha : a == ' '
    · rw [if_pos ha]
      by_cases hb : b
      · rw [if_pos hb]
        exact ih true
      · rw [if_neg hb]
        simp [hasDoubleSpace, collapseDoubleSpace_true_head, ih true]
    · rw [if_neg ha]
      have ha' : (a == ' ') = false := by
        revert ha
        cases a == ' ' <;> simp
      simp [hasDoubleSpace, ha', ih false]

theorem head_dropWhile_not_pos (p : Char → Bool) (l : List Char) :
    ∀ c, (l.dropWhile p).head? = some c → p c = false := by
  induction l with
  | nil => intro c h; simp at h
  | cons a rest ih =>
    intro c h
    rw [List.dropWhile_cons] at h
    split at h
    · exact ih c h
    · simp only [List.head?_cons, Option.some.injEq] at h
      rename_i hpa
      rw [← h]
      revert hpa
      cases p a <;> simp

theorem pyStrip_head (l : List Char) :
    ∀ c, (pyStrip l).head? = some c → isPySpace c = false := by
  intro c h
  rcases pyStrip_isPrefix_dropWhile l with ⟨t, ht⟩
  have hh : (l.dropWhile isPySpace).head? = some c := by
    rw [← ht]
    rcases hs : pyStrip l with _ | ⟨x, xs⟩
    · rw [hs] at h
      simp at h
    · rw [hs] at h
      simp only [List.head?_cons, Option.some.injEq] at h
      subst h
      simp
  exact head_dropWhile_not_pos _ _ _ hh

theorem pyStrip_getLast (l : List Char) :
    ∀ c, (pyStrip l).getLast? = some c → isPySpace c = false := by
  intro c h
  rw [pyStrip, List.getLast?_reverse] at h
  exact head_dropWhile_not_pos _ _ _ h

theorem contains_eq_false {l : List Char} {c : Char} (h : c ∉ l) : l.contains c = false := by
  rw [Bool.eq_false_iff]
  intro hc
  exact h (List.mem_of_elem_eq_true hc)

/-- C10: for every input string, the cleaned output contains no carriage
return, no tab, and no two consecutive spaces, and neither starts nor ends
with whitespace. -/
theorem c10_output_normalization (s : String) :
    (clean_text_for_llm s).data.contains '\r' = false ∧
    (clean_text_for_llm s).data.contains '\t' = false ∧
    hasDoubleSpace (clean_text_for_llm s).data = false ∧
    ((clean_text_for_llm s).data.head?.all fun c => !isPySpace c) = true ∧
    ((clean_text_for_llm s).data.getLast?.all fun c => !isPySpace c) = true := by
  have hdata : (clean_text_for_llm s).data
      = cleanSteps4to13 (replaceCR (replaceCRLF (collapseSpaceTab false s.data))) := by
    unfold clean_text_for_llm cleanList
    with_reducible rfl
  refine ⟨?_, ?_, ?_, ?_, ?_⟩
  · apply contains_eq_false
    rw [hdata]
    exact not_mem_cleanSteps4to13 (by decide) (by decide) (not_cr_replaceCR _)
  · apply contains_eq_false
    rw [hdata]
    refine not_mem_cleanSteps4to13 (by decide) (by decide) ?_
    intro hm
    rcases mem_replaceCR _ hm with h1 | h1
    · exact not_tab_collapseSpaceTab _ _ (mem_replaceCRLF _ h1)
    · exact absurd h1 (by decide)
  · rw [hdata]
    exact hds_false_of_infix (pyStrip_isInfix _) (hds_collapseDoubleSpace _ false)
  · rw [hdata]
    cases hh : (cleanSteps4to13 (replaceCR (replaceCRLF (collapseSpaceTab false s.data)))).head?
      with
    | none => rfl
    | some c0 =>
      have hc0 : isPySpace c0 = false := pyStrip_head _ c0 hh
      simp [Option.all, hc0]
  · rw [hdata]
    cases hh : (cleanSteps4to13
        (replaceCR (replaceCRLF (collapseSpaceTab false s.data)))).getLast? with
    | none => rfl
    | some c0 =>
      have hc0 : isPySpace c0 = false := pyStrip_getLast _ c0 hh
      simp [Option.all, hc0]
